import Mathlib

/-!
Verification development for the AXIO MET AX-178 serial multimeter logger
(`axio-logger.py`).  The script has three parts with decision logic:

* `synchronize(port)` — aligns reads to 8-byte frame boundaries using
  read-timeout side effects;
* a static table `modes` mapping 9-bit little-endian key patterns to a
  measurement unit and divisor;
* the body of the `process` loop — for each 8-byte frame it builds a 24-bit
  little-endian bit view of bytes 0-2, parses the magnitude from bytes 3-7,
  looks up the mode, and applies an ordered cascade of unit-conditional
  rewrite rules followed by a x10 multiplier, sign, and overflow handling.

Everything below is a direct shallow embedding of that code: machine bytes
become `Nat` (each < 256 for real frames), the Python `float` value becomes
`ℚ`, console prints of results become constructors of an `Output` type, and
the serial port becomes an explicit state record with an event trace.
-/

/-- Measurement mode: a unit label and a divisor (class `Mode` in the source). -/
structure DMode where
  unit : String
  divisor : ℕ
deriving DecidableEq

/-- The `modes` table of the source.  Each key is the 9-bit little-endian
bit pattern fed to `bit_bytes` (character j of the Python bit string becomes
entry j of the list; `1` becomes `true`).  The source compares keys via
`tobytes()` of 9-bit little-endian bitarrays, which is equivalent to
comparing the bit sequences themselves. -/
def modeTable : List (List Bool × DMode) :=
  [ ([false,false,true,false,true,false,false,false,false], ⟨"V AC", 10000⟩),
    ([false,false,true,false,true,false,false,false,true ], ⟨"%", 100⟩),
    ([false,false,true,false,true,false,false,true ,false], ⟨"mV DC", 1000⟩),
    ([false,false,true,false,true,false,false,true ,true ], ⟨"nF", 100⟩),
    ([false,false,true,false,true,false,true ,false,false], ⟨"V DC", 10000⟩),
    ([false,false,true,false,true,false,true ,false,true ], ⟨"Ohm", 100⟩),
    ([false,false,true,false,true,false,true ,true ,false], ⟨"mV AC DC", 100⟩),
    ([false,false,true,false,true,false,true ,true ,true ], ⟨"uA AC", 100⟩),
    ([false,false,true,false,true,true ,false,false,false], ⟨"dBm", 100⟩),
    ([false,false,true,false,true,true ,false,false,true ], ⟨"VF", 10000⟩),
    ([false,false,true,false,true,true ,false,true ,false], ⟨"mV AC", 1000⟩),
    ([false,false,true,false,true,true ,false,true ,true ], ⟨"uA DC", 100⟩),
    ([false,false,true,false,true,true ,true ,false,false], ⟨"A DC", 10000⟩),
    ([false,false,true,false,true,true ,true ,true ,false], ⟨"Hz", 1000⟩),
    ([false,false,true,false,true,true ,true ,true ,true ], ⟨"uA AC DC", 100⟩) ]

/-- Dictionary lookup `modes[mode.tobytes()]` (with the `not in` test). -/
def lookupMode (k : List Bool) : Option DMode :=
  (modeTable.find? fun p => decide (p.1 = k)).map (fun p => p.2)

/-- Bit i of the little-endian bit view `ba` built from a frame
(`bitarray(endian=little); ba.frombytes(a[0:3])`): bit i lives in byte
i / 8 at intra-byte position i % 8 (LSB first). -/
def baBits (a : List ℕ) (i : ℕ) : Bool :=
  Nat.testBit (a.getD (i / 8) 0) (i % 8)

/-- The 9-bit mode key `ba[3:12]`. -/
def modeKeyOf (b : ℕ → Bool) : List Bool :=
  (List.range 9).map (fun i => b (3 + i))

/-- Decimal representation of a natural number, most significant digit
first, as produced by Python `str(c)` for a non-negative integer; fuel-based
so that it evaluates by kernel reduction.  Fuel `n` always suffices because
the digit count of `n` is at most `n`. -/
def decReprAux : ℕ → ℕ → List ℕ → List ℕ
  | 0, n, acc => n :: acc
  | fuel + 1, n, acc =>
      if n < 10 then n :: acc else decReprAux fuel (n / 10) (n % 10 :: acc)

/-- Digits of `str(c)` for a byte value `c`. -/
def decRepr (n : ℕ) : List ℕ :=
  decReprAux n n []

/-- Digit sequence of the string `numbers = join([str(c) for c in a[3:8]])`. -/
def numbersDigits (ds : List ℕ) : List ℕ :=
  (ds.map decRepr).flatten

/-- Value of a decimal digit string, as computed by `int(numbers)` on a
string of decimal numeral characters. -/
def parseDec (l : List ℕ) : ℕ :=
  l.foldl (fun acc d => 10 * acc + d) 0

/-- The magnitude `value = int(numbers)` parsed from the five digit bytes. -/
def magnitude (ds : List ℕ) : ℕ :=
  parseDec (numbersDigits ds)

/-- A frame is exactly 8 bytes, each a byte value. -/
def IsFrame (a : List ℕ) : Prop :=
  a.length = 8 ∧ ∀ x ∈ a, x < 256

instance : DecidablePred IsFrame := fun a => by
  unfold IsFrame; infer_instance

/-- Scaled measurement value: a rational, or the string `OVERFLOW` that the
source stores into `value` when bit 13 is set. -/
inductive MeasValue where
  | num (q : ℚ)
  | overflow
deriving DecidableEq

/-- What one loop iteration of `process` emits for a full frame: a decoded
measurement line, the unknown-mode diagnostic on stderr, or (under `--raw`)
the raw line with the bit view, mode key bits, sign bit and digit string. -/
inductive Output where
  | measurement (value : MeasValue) (unit : String)
  | unknownMode (modeKey : List Bool) (magnitude : ℕ)
  | raw (bits : List Bool) (modeKey : List Bool) (negative : Bool) (digits : List ℕ)
deriving DecidableEq

/-- The ordered cascade of unit-conditional rewrite rules of `process`
(source lines 113-159), acting on the current unit, value and negative
flag.  Each `let` is one `if` statement of the source, in source order. -/
def chain (b : ℕ → Bool) (unit0 : String) (value0 : ℚ) (neg0 : Bool) :
    String × ℚ × Bool :=
  let p1 : String × ℚ :=
    if unit0 = "Ohm" then
      if b 2 then ("M Ohm", value0 / 100)
      else if b 1 then ("k Ohm", value0 / 10)
      else (unit0, value0)
    else (unit0, value0)
  let p2 : String × ℚ :=
    if p1.1 = "%" ∧ b 14 then ("nF", p1.2 / 1000) else p1
  let p3 : String × ℚ :=
    if p2.1 = "nF" ∧ b 2 then ("uF", p2.2 * 10) else p2
  let q4 : String × ℚ × Bool :=
    if p3.1 = "V AC" then (p3.1, if b 1 then p3.2 * 100 else p3.2, false)
    else (p3.1, p3.2, neg0)
  let q5 : String × ℚ × Bool :=
    if q4.1 = "mV DC" ∧ b 12 then ("A AC", q4.2.1 / 10, false) else q4
  let q6 : String × ℚ × Bool :=
    if q5.1 = "V DC" ∧ b 12 then ("mA AC DC", q5.2.1 * 10, q5.2.2) else q5
  let q7 : String × ℚ × Bool :=
    if q6.1 = "mV AC" ∧ b 12 then ("A AC DC", q6.2.1 / 10, q6.2.2) else q6
  let q8 : String × ℚ × Bool :=
    if q7.1 = "V AC" ∧ b 12 then ("mA DC", q7.2.1, q7.2.2) else q7
  let q9 : String × ℚ × Bool :=
    if q8.1 = "dBm" ∧ q8.2.2 then ("ma AC", q8.2.1 / 10, false) else q8
  let q10 : String × ℚ × Bool :=
    if q9.1 = "uA AC" then (q9.1, q9.2.1, false) else q9
  q10

/-- Decoding of a known-mode frame after the table lookup, with the initial
value of the `negative` variable passed explicitly: the initial division by
the mode divisor, the rewrite cascade, the x10 multiplier for bit 0, the
negation for a still-set negative flag, and the overflow replacement for
bit 13. -/
def decodeMeasureWith (b : ℕ → Bool) (neg : Bool) (m : DMode) (mag : ℕ) :
    MeasValue × String :=
  let c := chain b m.unit ((mag : ℚ) / (m.divisor : ℚ)) neg
  let v1 := if b 0 then c.2.1 * 10 else c.2.1
  let v2 := if c.2.2 then -v1 else v1
  if b 13 then (MeasValue.overflow, c.1) else (MeasValue.num v2, c.1)

/-- Decoding of a known-mode frame: the `negative` variable starts as the
sign bit `ba[21]` of the frame. -/
def decodeMeasure (b : ℕ → Bool) (m : DMode) (mag : ℕ) : MeasValue × String :=
  decodeMeasureWith b (b 21) m mag

/-- One full-frame iteration of the `process` loop as a pure function:
builds the bit view from bytes 0-2, parses the magnitude from bytes 3-7,
and either emits the raw record (`--raw`), the unknown-mode diagnostic, or
the decoded measurement. -/
def processFrame (raw : Bool) (a : List ℕ) : Output :=
  let b := baBits a
  let digits := List.take 5 (List.drop 3 a)
  let value := magnitude digits
  let mode := modeKeyOf b
  if raw then
    Output.raw ((List.range 24).map b) mode (b 21) (numbersDigits digits)
  else
    match lookupMode mode with
    | none => Output.unknownMode mode value
    | some m =>
        let r := decodeMeasure b m value
        Output.measurement r.1 r.2

/-- Side effects `synchronize` performs on the serial port: a timeout
assignment or a read request of `n` bytes together with the bytes the port
delivers for it.  The console print of `len(a)` touches only stdout, not
the port, and is not an event. -/
inductive Ev where
  | setTimeout (ms : ℕ)
  | read (n : ℕ) (result : List ℕ)
deriving DecidableEq

/-- Serial port state: the list of byte chunks the device will deliver for
the successive read calls, the current timeout, and the trace of effects
performed so far. -/
structure Port where
  pending : List (List ℕ)
  timeout : ℕ
  trace : List Ev
deriving DecidableEq

/-- Assignment `port.timeout = t`. -/
def pSetTimeout (t : ℕ) (p : Port) : Port :=
  { p with timeout := t, trace := p.trace ++ [Ev.setTimeout t] }

/-- The call `port.read(n)`: the next pending chunk is delivered, truncated
to at most `n` bytes; a missing chunk models a timed-out empty read. -/
def pRead (n : ℕ) (p : Port) : List ℕ × Port :=
  let r := (p.pending.headD []).take n
  (r, { p with pending := p.pending.tail, trace := p.trace ++ [Ev.read n r] })

/-- The `while True` loop of `synchronize`: read 8 bytes; if all 8 arrived
in one call, set the timeout to 400 and return, else retry.  The loop never
returns on a stream that never delivers a full chunk; exhausting the
pending list models that divergence as `none`. -/
def syncLoop : List (List ℕ) → ℕ → List Ev → Option Port
  | [], _, _ => none
  | c :: rest, t, tr =>
      let a := c.take 8
      let tr2 := tr ++ [Ev.read 8 a]
      if a.length = 8 then some (pSetTimeout 400 ⟨rest, t, tr2⟩)
      else syncLoop rest t tr2

/-- The `synchronize(port)` function: set the timeout to 50, discard one
16-byte read, then run the realignment loop. -/
def synchronize (p : Port) : Option Port :=
  let p1 := pSetTimeout 50 p
  let q := pRead 16 p1
  syncLoop q.2.pending q.2.timeout q.2.trace

/-! ## Helper lemmas -/

/-- The mode key written out: frame bits 3 through 11. -/
theorem modeKeyOf_eq (b : ℕ → Bool) :
    modeKeyOf b = [b 3, b 4, b 5, b 6, b 7, b 8, b 9, b 10, b 11] := rfl

/-- A successful table lookup returns one of the 15 table modes. -/
theorem mem_of_lookupMode {k : List Bool} {m : DMode}
    (h : lookupMode k = some m) : m ∈ modeTable.map Prod.snd := by
  unfold lookupMode at h
  obtain ⟨p, hp, hpm⟩ := Option.map_eq_some'.mp h
  exact hpm ▸ List.mem_map_of_mem Prod.snd (List.mem_of_find?_eq_some hp)

/-- The rewrite cascade reads the bit view only at indices 1, 2, 12 and 14. -/
theorem chain_congr {b b' : ℕ → Bool} (h1 : b 1 = b' 1) (h2 : b 2 = b' 2)
    (h12 : b 12 = b' 12) (h14 : b 14 = b' 14) (u : String) (v : ℚ) (n : Bool) :
    chain b u v n = chain b' u v n := by
  simp only [chain, h1, h2, h12, h14]

/-- The decimal representation of a single-digit value is that digit. -/
theorem decRepr_digit {d : ℕ} (hd : d ≤ 9) : decRepr d = [d] := by
  interval_cases d <;> rfl

/-- The decimal representation of a value is never the empty string. -/
theorem decReprAux_ne_nil (fuel : ℕ) :
    ∀ n acc, decReprAux fuel n acc ≠ [] := by
  induction fuel with
  | zero => intro n acc; simp [decReprAux]
  | succ k ih =>
      intro n acc
      rw [decReprAux]
      split
      · simp
      · exact ih _ _

/-- Every character of the decimal representation is a decimal digit,
provided the fuel covers the value. -/
theorem decReprAux_lt (fuel : ℕ) :
    ∀ n acc, n ≤ fuel → (∀ x ∈ acc, x < 10) →
      ∀ x ∈ decReprAux fuel n acc, x < 10 := by
  induction fuel with
  | zero =>
      intro n acc hn hacc x hx
      interval_cases n
      rw [decReprAux] at hx
      rcases List.mem_cons.mp hx with h | h
      · omega
      · exact hacc x h
  | succ k ih =>
      intro n acc hn hacc x hx
      rw [decReprAux] at hx
      by_cases hlt : n < 10
      · rw [if_pos hlt] at hx
        rcases List.mem_cons.mp hx with h | h
        · omega
        · exact hacc x h
      · rw [if_neg hlt] at hx
        refine ih (n / 10) (n % 10 :: acc) (by omega) ?_ x hx
        intro y hy
        rcases List.mem_cons.mp hy with h | h
        · have := Nat.mod_lt n (show 0 < 10 by norm_num); omega
        · exact hacc y h

theorem decRepr_ne_nil (n : ℕ) : decRepr n ≠ [] :=
  decReprAux_ne_nil n n []

theorem decRepr_lt (n : ℕ) : ∀ x ∈ decRepr n, x < 10 :=
  decReprAux_lt n n [] le_rfl (by simp)

/-- When every digit byte is a single decimal digit, the printed digit
string is exactly those digits. -/
theorem numbersDigits_of_digits {ds : List ℕ} (h : ∀ d ∈ ds, d ≤ 9) :
    numbersDigits ds = ds := by
  induction ds with
  | nil => rfl
  | cons d t ih =>
      have hd : d ≤ 9 := h d (by simp)
      have ht : ∀ x ∈ t, x ≤ 9 := fun x hx => h x (by simp [hx])
      simp [numbersDigits, decRepr_digit hd] at ih ⊢
      exact ih ht

/-- Folding up a list of decimal digits stays below `(acc+1) * 10 ^ length`. -/
theorem parseDec_foldl_lt (l : List ℕ) :
    ∀ acc : ℕ, (∀ d ∈ l, d < 10) →
      List.foldl (fun a d => 10 * a + d) acc l < (acc + 1) * 10 ^ l.length := by
  induction l with
  | nil => intro acc _; simp [Nat.lt_succ_self acc]
  | cons d t ih =>
      intro acc h
      have hd : d < 10 := h d (by simp)
      have ht : ∀ x ∈ t, x < 10 := fun x hx => h x (by simp [hx])
      have h1 : List.foldl (fun a d => 10 * a + d) (10 * acc + d) t <
          (10 * acc + d + 1) * 10 ^ t.length := ih (10 * acc + d) ht
      have h2 : (10 * acc + d + 1) * 10 ^ t.length ≤
          ((acc + 1) * 10) * 10 ^ t.length :=
        Nat.mul_le_mul_right _ (by omega)
      calc List.foldl (fun a d => 10 * a + d) acc (d :: t)
          = List.foldl (fun a d => 10 * a + d) (10 * acc + d) t := rfl
        _ < (10 * acc + d + 1) * 10 ^ t.length := h1
        _ ≤ ((acc + 1) * 10) * 10 ^ t.length := h2
        _ = (acc + 1) * 10 ^ (d :: t).length := by
              simp [List.length_cons, pow_succ]; ring

/-! ## Claims -/

/-- C10: with raw output selected, every full 8-byte frame produces exactly
the raw record (the 24-bit view, the mode key bits, the sign bit, and the
digit string); the mode table lookup is never reached, so even an unknown
mode key yields raw output, never an unknown-mode diagnostic, and no
measurement is ever constructed. -/
theorem raw_mode_bypasses_decode :
    ∀ a : List ℕ, IsFrame a →
      processFrame true a =
        Output.raw ((List.range 24).map (baBits a)) (modeKeyOf (baBits a))
          (baBits a 21) (numbersDigits (List.take 5 (List.drop 3 a))) ∧
      (∀ v u, processFrame true a ≠ Output.measurement v u) ∧
      (∀ k v, processFrame true a ≠ Output.unknownMode k v) := by
  intro a _
  refine ⟨rfl, ?_, ?_⟩
  · intro v u h
    simp [processFrame] at h
  · intro k v h
    simp [processFrame] at h

/-- Witness for C10: a concrete frame whose mode key is not in the table
still produces the raw record under raw mode. -/
theorem raw_mode_bypasses_decode_witness :
    IsFrame [0, 0, 0, 0, 0, 0, 0, 0] ∧
    processFrame true [0, 0, 0, 0, 0, 0, 0, 0] =
      Output.raw ((List.range 24).map (baBits [0, 0, 0, 0, 0, 0, 0, 0]))
        (modeKeyOf (baBits [0, 0, 0, 0, 0, 0, 0, 0]))
        (baBits [0, 0, 0, 0, 0, 0, 0, 0] 21)
        (numbersDigits (List.take 5 (List.drop 3 [0, 0, 0, 0, 0, 0, 0, 0]))) :=
  ⟨by decide, (raw_mode_bypasses_decode [0, 0, 0, 0, 0, 0, 0, 0] (by decide)).1⟩

/-- C2: a frame whose 9-bit mode key is absent from the table decodes to
the unknown-mode diagnostic carrying the key and the magnitude, and never
to a measurement; the decoder is a total function, so no exception is
modelled and the driver loop continues. -/
theorem unknown_mode_recoverable :
    ∀ a : List ℕ, IsFrame a → lookupMode (modeKeyOf (baBits a)) = none →
      processFrame false a =
        Output.unknownMode (modeKeyOf (baBits a))
          (magnitude (List.take 5 (List.drop 3 a))) ∧
      ∀ v u, processFrame false a ≠ Output.measurement v u := by
  intro a _ h
  refine ⟨by simp [processFrame, h], ?_⟩
  intro v u hc
  simp [processFrame, h] at hc

/-- Witness for C2: the all-zero frame has mode key outside the table and
decodes to the unknown-mode diagnostic. -/
theorem unknown_mode_recoverable_witness :
    IsFrame [0, 0, 0, 0, 0, 0, 0, 0] ∧
    lookupMode (modeKeyOf (baBits [0, 0, 0, 0, 0, 0, 0, 0])) = none ∧
    processFrame false [0, 0, 0, 0, 0, 0, 0, 0] =
      Output.unknownMode (modeKeyOf (baBits [0, 0, 0, 0, 0, 0, 0, 0]))
        (magnitude (List.take 5 (List.drop 3 [0, 0, 0, 0, 0, 0, 0, 0]))) :=
  ⟨by decide, by decide,
    (unknown_mode_recoverable [0, 0, 0, 0, 0, 0, 0, 0] (by decide) (by decide)).1⟩

/-- C9: for every 8-byte frame, whatever the digit byte values, the digit
string is a nonempty sequence of decimal digits, so parsing it succeeds,
and decoding proceeds normally to an unknown-mode diagnostic or a
measurement; no error outcome exists. -/
theorem digit_bytes_never_fail :
    ∀ a : List ℕ, IsFrame a →
      (numbersDigits (List.take 5 (List.drop 3 a)) ≠ [] ∧
        ∀ d ∈ numbersDigits (List.take 5 (List.drop 3 a)), d < 10) ∧
      ((∃ k v, processFrame false a = Output.unknownMode k v) ∨
        (∃ v u, processFrame false a = Output.measurement v u)) := by
  intro a ha
  have h8 : a.length = 8 := ha.1
  have hlen : (List.take 5 (List.drop 3 a)).length = 5 := by
    rw [List.length_take, List.length_drop, h8]
    norm_num
  have hne : List.take 5 (List.drop 3 a) ≠ [] := by
    intro h
    rw [h] at hlen
    simp at hlen
  constructor
  · constructor
    · obtain ⟨d, t, hdt⟩ := List.exists_cons_of_ne_nil hne
      rw [hdt]
      show decRepr d ++ (t.map decRepr).flatten ≠ []
      intro h
      exact decRepr_ne_nil d (List.append_eq_nil.mp h).1
    · intro d hd
      obtain ⟨l, hl, hdl⟩ := List.mem_flatten.mp hd
      obtain ⟨x, _, hxl⟩ := List.mem_map.mp hl
      subst hxl
      exact decRepr_lt x d hdl
  · cases h : lookupMode (modeKeyOf (baBits a)) with
    | none =>
        exact Or.inl ⟨modeKeyOf (baBits a),
          magnitude (List.take 5 (List.drop 3 a)), by simp [processFrame, h]⟩
    | some m =>
        exact Or.inr
          ⟨(decodeMeasure (baBits a) m (magnitude (List.take 5 (List.drop 3 a)))).1,
           (decodeMeasure (baBits a) m (magnitude (List.take 5 (List.drop 3 a)))).2,
           by simp [processFrame, h]⟩

/-- Witness for C9: a frame with non-numeral digit bytes (such as 65 and
255) still yields a nonempty all-digit string and a normal decode outcome. -/
theorem digit_bytes_never_fail_witness :
    IsFrame [0, 0, 0, 65, 66, 67, 200, 255] ∧
    numbersDigits (List.take 5 (List.drop 3 [0, 0, 0, 65, 66, 67, 200, 255])) ≠ [] :=
  ⟨by decide,
    (digit_bytes_never_fail [0, 0, 0, 65, 66, 67, 200, 255] (by decide)).1.1⟩

/-- Counterexample to C7: a frame whose digit bytes are not decimal numeral
characters produces a magnitude far above 99999 — byte value 255 contributes
the three characters 2, 5, 5 to the digit string. -/
theorem magnitude_range_cex :
    IsFrame [0, 0, 0, 255, 255, 255, 255, 255] ∧
    magnitude (List.take 5 (List.drop 3 [0, 0, 0, 255, 255, 255, 255, 255])) =
      255255255255255 ∧
    99999 < magnitude (List.take 5 (List.drop 3 [0, 0, 0, 255, 255, 255, 255, 255])) := by
  decide

/-- C7 amended: the magnitude is always a non-negative integer (it is a
`Nat` by construction), and it lies in 0..99999 when each digit byte is a
single decimal digit, which the 0..99999 bound of the claim presupposes. -/
theorem magnitude_range_amended :
    ∀ a : List ℕ, IsFrame a →
      (∀ d ∈ List.take 5 (List.drop 3 a), d ≤ 9) →
      magnitude (List.take 5 (List.drop 3 a)) ≤ 99999 := by
  intro a ha hd
  have hlen : (List.take 5 (List.drop 3 a)).length = 5 := by
    simp [List.length_take, List.length_drop, ha.1]
  have hlt : magnitude (List.take 5 (List.drop 3 a)) < 100000 := by
    rw [magnitude, numbersDigits_of_digits hd]
    have := parseDec_foldl_lt (List.take 5 (List.drop 3 a)) 0
      (fun d hdm => by have := hd d hdm; omega)
    rw [hlen] at this
    simpa [parseDec] using this
  omega

/-- Witness for C7 amended: the digit bytes 1,2,3,4,5 give magnitude 12345,
within range. -/
theorem magnitude_range_amended_witness :
    IsFrame [0, 0, 0, 1, 2, 3, 4, 5] ∧
    magnitude (List.take 5 (List.drop 3 [0, 0, 0, 1, 2, 3, 4, 5])) ≤ 99999 :=
  ⟨by decide,
    magnitude_range_amended [0, 0, 0, 1, 2, 3, 4, 5] (by decide) (by decide)⟩

/-- C1: for each of the 15 table keys, a frame with that mode key and all
special bits (0, 1, 2, 12, 13, 14, 21) cleared decodes to the table unit
and to the magnitude divided by the table divisor. -/
theorem mode_table_scaling :
    ∀ (k : List Bool) (m : DMode), (k, m) ∈ modeTable →
    ∀ a : List ℕ, IsFrame a → modeKeyOf (baBits a) = k →
      baBits a 0 = false → baBits a 1 = false → baBits a 2 = false →
      baBits a 12 = false → baBits a 13 = false → baBits a 14 = false →
      baBits a 21 = false →
      processFrame false a =
        Output.measurement
          (MeasValue.num
            ((magnitude (List.take 5 (List.drop 3 a)) : ℚ) / (m.divisor : ℚ)))
          m.unit := by
  intro k m hmem a _ hkey hb0 hb1 hb2 hb12 hb13 hb14 hb21
  fin_cases hmem <;>
    simp [processFrame, hkey, lookupMode, modeTable, List.find?, decodeMeasure, decodeMeasureWith,
      chain, hb0, hb1, hb2, hb12, hb13, hb14, hb21]

/-- Witness for C1: the frame carrying the "V AC" key with all special bits
cleared decodes to magnitude / 10000 with unit "V AC". -/
theorem mode_table_scaling_witness :
    ([false,false,true,false,true,false,false,false,false],
      (⟨"V AC", 10000⟩ : DMode)) ∈ modeTable ∧
    processFrame false [160, 0, 0, 0, 0, 0, 0, 0] =
      Output.measurement
        (MeasValue.num
          ((magnitude (List.take 5 (List.drop 3 [160, 0, 0, 0, 0, 0, 0, 0])) : ℚ) /
            ((10000 : ℕ) : ℚ)))
        "V AC" :=
  ⟨by decide,
    mode_table_scaling [false,false,true,false,true,false,false,false,false]
      ⟨"V AC", 10000⟩ (by decide) [160, 0, 0, 0, 0, 0, 0, 0] (by decide) (by decide)
      (by decide) (by decide) (by decide) (by decide) (by decide) (by decide)
      (by decide)⟩

/-- C5: a frame whose mode key is the "mV DC" key with bit 12 set and the
other special bits cleared decodes to unit "A AC" with value
magnitude / 1000 / 10; the sign stays non-negative whatever the sign bit 21
holds (the rule forces the negative flag off). -/
theorem mvdc_bit12_rewrites_to_aac :
    ∀ a : List ℕ, IsFrame a →
      modeKeyOf (baBits a) = [false,false,true,false,true,false,false,true,false] →
      baBits a 12 = true →
      baBits a 0 = false → baBits a 1 = false → baBits a 2 = false →
      baBits a 13 = false → baBits a 14 = false →
      processFrame false a =
        Output.measurement
          (MeasValue.num
            ((magnitude (List.take 5 (List.drop 3 a)) : ℚ) / 1000 / 10))
          "A AC" := by
  intro a _ hkey hb12 hb0 hb1 hb2 hb13 hb14
  have hlk : lookupMode (modeKeyOf (baBits a)) = some ⟨"mV DC", 1000⟩ := by
    rw [hkey]; decide
  simp [processFrame, hlk, decodeMeasure, decodeMeasureWith, chain, hb0, hb1, hb2, hb12, hb13, hb14]

/-- Witness for C5: a concrete "mV DC" frame with bit 12 and the sign bit
21 both set still yields the non-negative value magnitude / 1000 / 10 in
unit "A AC". -/
theorem mvdc_bit12_rewrites_to_aac_witness :
    baBits [160, 20, 32, 0, 0, 0, 4, 2] 21 = true ∧
    processFrame false [160, 20, 32, 0, 0, 0, 4, 2] =
      Output.measurement
        (MeasValue.num
          ((magnitude (List.take 5 (List.drop 3 [160, 20, 32, 0, 0, 0, 4, 2])) : ℚ) /
            1000 / 10))
        "A AC" :=
  ⟨by decide,
    mvdc_bit12_rewrites_to_aac [160, 20, 32, 0, 0, 0, 4, 2] (by decide) (by decide)
      (by decide) (by decide) (by decide) (by decide) (by decide) (by decide)⟩

/-- C6: a frame whose mode key is the "V AC" key with bit 12 set is
rewritten to unit "mA DC" with the value left unchanged — the commented-out
division by 10 of the source is not applied, so the value is exactly
magnitude / 10000 when bits 0 and 1 are clear, whatever bits 2, 14, 21
hold. -/
theorem vac_bit12_no_rescale :
    ∀ a : List ℕ, IsFrame a →
      modeKeyOf (baBits a) = [false,false,true,false,true,false,false,false,false] →
      baBits a 12 = true →
      baBits a 0 = false → baBits a 1 = false → baBits a 13 = false →
      processFrame false a =
        Output.measurement
          (MeasValue.num ((magnitude (List.take 5 (List.drop 3 a)) : ℚ) / 10000))
          "mA DC" := by
  intro a _ hkey hb12 hb0 hb1 hb13
  have hlk : lookupMode (modeKeyOf (baBits a)) = some ⟨"V AC", 10000⟩ := by
    rw [hkey]; decide
  simp [processFrame, hlk, decodeMeasure, decodeMeasureWith, chain, hb0, hb1, hb12, hb13]

/-- Witness for C6: a concrete "V AC" frame with bit 12 set (and the sign
bit set, which the "V AC" rule discards) decodes to magnitude / 10000 in
unit "mA DC". -/
theorem vac_bit12_no_rescale_witness :
    baBits [160, 16, 32, 0, 0, 0, 3, 9] 12 = true ∧
    processFrame false [160, 16, 32, 0, 0, 0, 3, 9] =
      Output.measurement
        (MeasValue.num
          ((magnitude (List.take 5 (List.drop 3 [160, 16, 32, 0, 0, 0, 3, 9])) : ℚ) /
            10000))
        "mA DC" :=
  ⟨by decide,
    vac_bit12_no_rescale [160, 16, 32, 0, 0, 0, 3, 9] (by decide) (by decide)
      (by decide) (by decide) (by decide) (by decide)⟩

/-- C3: for any known-mode frame with bit 13 set, the decoded value is the
OVERFLOW sentinel whatever the magnitude, mode and remaining bits, and the
reported unit is exactly the unit the otherwise identical frame with bit 13
cleared reports — the overflow replacement leaves the unit unchanged. -/
theorem overflow_forces_sentinel :
    ∀ a a' : List ℕ, IsFrame a → IsFrame a' →
      (∀ i, i < 24 → i ≠ 13 → baBits a i = baBits a' i) →
      List.take 5 (List.drop 3 a) = List.take 5 (List.drop 3 a') →
      baBits a 13 = true → baBits a' 13 = false →
      ∀ m, lookupMode (modeKeyOf (baBits a)) = some m →
      ∀ v' u', processFrame false a' = Output.measurement v' u' →
        processFrame false a = Output.measurement MeasValue.overflow u' := by
  intro a a' _ _ hbits hdig h13 h13' m hm v' u' hv
  have hkey : modeKeyOf (baBits a) = modeKeyOf (baBits a') := by
    rw [modeKeyOf_eq, modeKeyOf_eq,
      hbits 3 (by norm_num) (by norm_num), hbits 4 (by norm_num) (by norm_num),
      hbits 5 (by norm_num) (by norm_num), hbits 6 (by norm_num) (by norm_num),
      hbits 7 (by norm_num) (by norm_num), hbits 8 (by norm_num) (by norm_num),
      hbits 9 (by norm_num) (by norm_num), hbits 10 (by norm_num) (by norm_num),
      hbits 11 (by norm_num) (by norm_num)]
  have hm' : lookupMode (modeKeyOf (baBits a')) = some m := by
    rw [← hkey]; exact hm
  have hmag : magnitude (List.take 5 (List.drop 3 a)) =
      magnitude (List.take 5 (List.drop 3 a')) := by rw [hdig]
  have hc : chain (baBits a) m.unit
        ((magnitude (List.take 5 (List.drop 3 a)) : ℚ) / (m.divisor : ℚ))
        (baBits a 21) =
      chain (baBits a') m.unit
        ((magnitude (List.take 5 (List.drop 3 a')) : ℚ) / (m.divisor : ℚ))
        (baBits a' 21) := by
    rw [hmag, hbits 21 (by norm_num) (by norm_num)]
    exact chain_congr (hbits 1 (by norm_num) (by norm_num))
      (hbits 2 (by norm_num) (by norm_num)) (hbits 12 (by norm_num) (by norm_num))
      (hbits 14 (by norm_num) (by norm_num)) _ _ _
  have h2 : processFrame false a' =
      Output.measurement
        (decodeMeasure (baBits a') m (magnitude (List.take 5 (List.drop 3 a')))).1
        (chain (baBits a') m.unit
          ((magnitude (List.take 5 (List.drop 3 a')) : ℚ) / (m.divisor : ℚ))
          (baBits a' 21)).1 := by
    simp [processFrame, hm', decodeMeasure, decodeMeasureWith, h13']
  have hu : u' = (chain (baBits a') m.unit
      ((magnitude (List.take 5 (List.drop 3 a')) : ℚ) / (m.divisor : ℚ))
      (baBits a' 21)).1 := by
    rw [hv] at h2
    exact (Output.measurement.injEq _ _ _ _).mp h2 |>.2
  rw [hu]
  simp [processFrame, hm, decodeMeasure, decodeMeasureWith, h13, hc]

/-- Witness for C3: the "V DC" frame with magnitude 10000 decodes to value 1;
the same frame with bit 13 set decodes to OVERFLOW with the unit still
"V DC". -/
theorem overflow_forces_sentinel_witness :
    processFrame false [160, 34, 0, 1, 0, 0, 0, 0] =
      Output.measurement MeasValue.overflow "V DC" := by
  have hlk : lookupMode (modeKeyOf (baBits [160, 2, 0, 1, 0, 0, 0, 0])) =
      some ⟨"V DC", 10000⟩ := by decide
  have hmag : magnitude (List.take 5 (List.drop 3 [160, 2, 0, 1, 0, 0, 0, 0])) =
      10000 := by decide
  have hb0 : baBits [160, 2, 0, 1, 0, 0, 0, 0] 0 = false := by decide
  have hb1 : baBits [160, 2, 0, 1, 0, 0, 0, 0] 1 = false := by decide
  have hb2 : baBits [160, 2, 0, 1, 0, 0, 0, 0] 2 = false := by decide
  have hb12 : baBits [160, 2, 0, 1, 0, 0, 0, 0] 12 = false := by decide
  have hb13 : baBits [160, 2, 0, 1, 0, 0, 0, 0] 13 = false := by decide
  have hb14 : baBits [160, 2, 0, 1, 0, 0, 0, 0] 14 = false := by decide
  have hb21 : baBits [160, 2, 0, 1, 0, 0, 0, 0] 21 = false := by decide
  have h' : processFrame false [160, 2, 0, 1, 0, 0, 0, 0] =
      Output.measurement (MeasValue.num 1) "V DC" := by
    rw [processFrame]
    simp only [Bool.false_eq_true, if_false, hlk, hmag, decodeMeasure, decodeMeasureWith, chain,
      hb0, hb1, hb2, hb12, hb13, hb14, hb21]
    norm_num
  exact overflow_forces_sentinel [160, 34, 0, 1, 0, 0, 0, 0]
    [160, 2, 0, 1, 0, 0, 0, 0] (by decide) (by decide) (by decide) (by decide)
    (by decide) (by decide) ⟨"V DC", 10000⟩ (by decide) (MeasValue.num 1) "V DC" h'

/-- How the rewrite cascade treats the initial negative flag, for each
table unit: the forcing units "V AC", "uA AC" and "mV DC" with bit 12
erase it; "dBm" reacts to it by rewriting to "ma AC" and dividing by 10;
every other table unit passes it through unchanged, with unit and value
not depending on it. -/
theorem chain_sign_split (b : ℕ → Bool) (m : DMode)
    (hmem : m ∈ modeTable.map Prod.snd) (v : ℚ) :
    ((m.unit = "V AC" ∨ m.unit = "uA AC" ∨ (m.unit = "mV DC" ∧ b 12 = true)) →
        chain b m.unit v true = chain b m.unit v false) ∧
    (m.unit = "dBm" →
        chain b m.unit v true = ("ma AC", v / 10, false) ∧
        chain b m.unit v false = ("dBm", v, false)) ∧
    (m.unit ≠ "V AC" → m.unit ≠ "uA AC" → m.unit ≠ "dBm" →
        ¬(m.unit = "mV DC" ∧ b 12 = true) →
        chain b m.unit v true =
          ((chain b m.unit v false).1, (chain b m.unit v false).2.1, true) ∧
        (chain b m.unit v false).2.2 = false) := by
  fin_cases hmem <;>
    cases hb1 : b 1 <;> cases hb2 : b 2 <;> cases hb12 : b 12 <;> cases hb14 : b 14 <;>
      simp [chain, hb1, hb2, hb12, hb14]

/-- Sign-bit behaviour at the level of a full decode, comparing the same
bits and magnitude with the negative flag initially set versus cleared. -/
theorem decodeMeasureWith_sign (b : ℕ → Bool) (m : DMode) (mag : ℕ)
    (hmem : m ∈ modeTable.map Prod.snd) :
    ((m.unit = "V AC" ∨ m.unit = "uA AC" ∨ (m.unit = "mV DC" ∧ b 12 = true)) →
        decodeMeasureWith b true m mag = decodeMeasureWith b false m mag) ∧
    (m.unit = "dBm" →
        ∀ q : ℚ, decodeMeasureWith b false m mag = (MeasValue.num q, "dBm") →
          decodeMeasureWith b true m mag = (MeasValue.num (q / 10), "ma AC")) ∧
    (m.unit ≠ "V AC" → m.unit ≠ "uA AC" → m.unit ≠ "dBm" →
        ¬(m.unit = "mV DC" ∧ b 12 = true) →
        ∀ (q : ℚ) (u : String),
          decodeMeasureWith b false m mag = (MeasValue.num q, u) →
          decodeMeasureWith b true m mag = (MeasValue.num (-q), u)) := by
  obtain ⟨hA, hB, hC⟩ :=
    chain_sign_split b m hmem ((mag : ℚ) / (m.divisor : ℚ))
  refine ⟨?_, ?_, ?_⟩
  · intro hcase
    simp only [decodeMeasureWith, hA hcase]
  · intro hdbm q hq
    obtain ⟨h1, h2⟩ := hB hdbm
    simp only [decodeMeasureWith, h2] at hq
    simp only [decodeMeasureWith, h1]
    cases hb13 : b 13 with
    | false =>
        rw [hb13] at hq
        simp only [Bool.false_eq_true, if_false] at hq ⊢
        have hqv : (if b 0 then (mag : ℚ) / (m.divisor : ℚ) * 10
            else (mag : ℚ) / (m.divisor : ℚ)) = q := by
          have := (Prod.mk.injEq _ _ _ _).mp hq
          exact MeasValue.num.inj this.1
        cases hb0 : b 0 <;> rw [hb0] at hqv <;> simp at hqv ⊢ <;>
          rw [← hqv] <;> ring
    | true =>
        rw [hb13] at hq
        simp at hq
  · intro hn1 hn2 hn3 hn4 q u hq
    obtain ⟨h1, h2⟩ := hC hn1 hn2 hn3 hn4
    rcases hcf : chain b m.unit ((mag : ℚ) / (m.divisor : ℚ)) false with ⟨u1, v1, n1⟩
    rw [hcf] at h1 h2
    simp only at h1 h2
    subst h2
    simp only [decodeMeasureWith, hcf] at hq
    simp only [decodeMeasureWith, h1]
    cases hb13 : b 13 with
    | false =>
        rw [hb13] at hq
        simp only [Bool.false_eq_true, if_false] at hq ⊢
        obtain ⟨hv, hu⟩ := (Prod.mk.injEq _ _ _ _).mp hq
        simp [hu, MeasValue.num.inj hv]
    | true =>
        rw [hb13] at hq
        simp at hq

/-- A decode depends on the bit view only at indices 0, 1, 2, 12, 13, 14
once the initial negative flag is fixed. -/
theorem decodeMeasureWith_congr {b b' : ℕ → Bool}
    (h0 : b 0 = b' 0) (h1 : b 1 = b' 1) (h2 : b 2 = b' 2) (h12 : b 12 = b' 12)
    (h13 : b 13 = b' 13) (h14 : b 14 = b' 14) (neg : Bool) (m : DMode) (mag : ℕ) :
    decodeMeasureWith b neg m mag = decodeMeasureWith b' neg m mag := by
  simp only [decodeMeasureWith, h0, h13,
    chain_congr h1 h2 h12 h14 m.unit ((mag : ℚ) / (m.divisor : ℚ)) neg]

/-- C4 amended: consider a known-mode frame with the sign bit 21 set and
its otherwise identical twin with the sign bit cleared.  For the
force-non-negative cases — table unit "V AC", table unit "uA AC", and
table unit "mV DC" with bit 12 set (rewritten into the force-non-negative
"A AC" branch) — the two frames decode identically.  For table unit "dBm"
the sign bit does not negate: it triggers the dBm rule, which rewrites the
unit to "ma AC" and divides the value by 10 relative to the sign-cleared
frame.  For every other table unit the value is the negation of the
sign-cleared frame's value, with the same unit. -/
theorem sign_bit_negation_amended :
    ∀ a a' : List ℕ, IsFrame a → IsFrame a' →
      (∀ i, i < 24 → i ≠ 21 → baBits a i = baBits a' i) →
      List.take 5 (List.drop 3 a) = List.take 5 (List.drop 3 a') →
      baBits a 21 = true → baBits a' 21 = false →
      ∀ m, lookupMode (modeKeyOf (baBits a)) = some m →
      ((m.unit = "V AC" ∨ m.unit = "uA AC" ∨
          (m.unit = "mV DC" ∧ baBits a 12 = true)) →
        processFrame false a = processFrame false a') ∧
      (m.unit = "dBm" →
        ∀ q : ℚ,
          processFrame false a' = Output.measurement (MeasValue.num q) "dBm" →
          processFrame false a =
            Output.measurement (MeasValue.num (q / 10)) "ma AC") ∧
      (m.unit ≠ "V AC" → m.unit ≠ "uA AC" → m.unit ≠ "dBm" →
        ¬(m.unit = "mV DC" ∧ baBits a 12 = true) →
        ∀ (q : ℚ) (u : String),
          processFrame false a' = Output.measurement (MeasValue.num q) u →
          processFrame false a = Output.measurement (MeasValue.num (-q)) u) := by
  intro a a' _ _ hbits hdig h21 h21' m hm
  have hkey : modeKeyOf (baBits a) = modeKeyOf (baBits a') := by
    rw [modeKeyOf_eq, modeKeyOf_eq,
      hbits 3 (by norm_num) (by norm_num), hbits 4 (by norm_num) (by norm_num),
      hbits 5 (by norm_num) (by norm_num), hbits 6 (by norm_num) (by norm_num),
      hbits 7 (by norm_num) (by norm_num), hbits 8 (by norm_num) (by norm_num),
      hbits 9 (by norm_num) (by norm_num), hbits 10 (by norm_num) (by norm_num),
      hbits 11 (by norm_num) (by norm_num)]
  have hm' : lookupMode (modeKeyOf (baBits a')) = some m := by
    rw [← hkey]; exact hm
  have hmag : magnitude (List.take 5 (List.drop 3 a)) =
      magnitude (List.take 5 (List.drop 3 a')) := by rw [hdig]
  have hb12 : baBits a 12 = baBits a' 12 := hbits 12 (by norm_num) (by norm_num)
  have hPa : processFrame false a =
      Output.measurement
        (decodeMeasureWith (baBits a') true m
          (magnitude (List.take 5 (List.drop 3 a')))).1
        (decodeMeasureWith (baBits a') true m
          (magnitude (List.take 5 (List.drop 3 a')))).2 := by
    have hgen : processFrame false a =
        Output.measurement
          (decodeMeasure (baBits a) m (magnitude (List.take 5 (List.drop 3 a)))).1
          (decodeMeasure (baBits a) m (magnitude (List.take 5 (List.drop 3 a)))).2 := by
      simp [processFrame, hm]
    rw [hgen, decodeMeasure, h21, hmag,
      decodeMeasureWith_congr (hbits 0 (by norm_num) (by norm_num))
        (hbits 1 (by norm_num) (by norm_num)) (hbits 2 (by norm_num) (by norm_num))
        hb12 (hbits 13 (by norm_num) (by norm_num))
        (hbits 14 (by norm_num) (by norm_num)) true m
        (magnitude (List.take 5 (List.drop 3 a')))]
  have hPa' : processFrame false a' =
      Output.measurement
        (decodeMeasureWith (baBits a') false m
          (magnitude (List.take 5 (List.drop 3 a')))).1
        (decodeMeasureWith (baBits a') false m
          (magnitude (List.take 5 (List.drop 3 a')))).2 := by
    have hgen : processFrame false a' =
        Output.measurement
          (decodeMeasure (baBits a') m (magnitude (List.take 5 (List.drop 3 a')))).1
          (decodeMeasure (baBits a') m (magnitude (List.take 5 (List.drop 3 a')))).2 := by
      simp [processFrame, hm']
    rw [hgen, decodeMeasure, h21']
  obtain ⟨cA, cB, cC⟩ := decodeMeasureWith_sign (baBits a') m
    (magnitude (List.take 5 (List.drop 3 a'))) (mem_of_lookupMode hm')
  refine ⟨?_, ?_, ?_⟩
  · intro hcase
    rw [hPa, hPa', cA (by rw [← hb12]; exact hcase)]
  · intro hdbm q hq
    rw [hPa'] at hq
    have hinj := (Output.measurement.injEq _ _ _ _).mp hq
    have hdwF : decodeMeasureWith (baBits a') false m
        (magnitude (List.take 5 (List.drop 3 a'))) = (MeasValue.num q, "dBm") :=
      Prod.ext_iff.mpr ⟨hinj.1, hinj.2⟩
    rw [hPa, cB hdbm q hdwF]
  · intro hn1 hn2 hn3 hn4 q u hq
    rw [hPa'] at hq
    have hinj := (Output.measurement.injEq _ _ _ _).mp hq
    have hdwF : decodeMeasureWith (baBits a') false m
        (magnitude (List.take 5 (List.drop 3 a'))) = (MeasValue.num q, u) :=
      Prod.ext_iff.mpr ⟨hinj.1, hinj.2⟩
    rw [hPa, cC hn1 hn2 hn3 (by rw [← hb12]; exact hn4) q u hdwF]

/-- Counterexample to C4 as stated: two identical "dBm" frames differing
only in the sign bit 21 (magnitude 10, overflow clear).  With the sign bit
cleared the decode is 1/10 in unit "dBm"; with it set, the dBm rule fires:
the decode is 1/100 in unit "ma AC" — neither the negation of 1/10 nor the
unchanged value, so the sign bit neither negates nor leaves the
measurement alone in this force-non-negative branch. -/
theorem sign_bit_negation_cex :
    processFrame false [160, 1, 0, 0, 0, 0, 1, 0] =
      Output.measurement (MeasValue.num (1 / 10)) "dBm" ∧
    processFrame false [160, 1, 32, 0, 0, 0, 1, 0] =
      Output.measurement (MeasValue.num (1 / 100)) "ma AC" ∧
    baBits [160, 1, 32, 0, 0, 0, 1, 0] 21 = true ∧
    baBits [160, 1, 0, 0, 0, 0, 1, 0] 21 = false ∧
    (∀ i, i < 24 → i ≠ 21 →
      baBits [160, 1, 32, 0, 0, 0, 1, 0] i = baBits [160, 1, 0, 0, 0, 0, 1, 0] i) ∧
    (1 / 100 : ℚ) ≠ -(1 / 10) ∧ (1 / 100 : ℚ) ≠ 1 / 10 := by
  have hlk : lookupMode (modeKeyOf (baBits [160, 1, 0, 0, 0, 0, 1, 0])) =
      some ⟨"dBm", 100⟩ := by decide
  have hlk2 : lookupMode (modeKeyOf (baBits [160, 1, 32, 0, 0, 0, 1, 0])) =
      some ⟨"dBm", 100⟩ := by decide
  have hmag : magnitude (List.take 5 (List.drop 3 [160, 1, 0, 0, 0, 0, 1, 0])) =
      10 := by decide
  have hmag2 : magnitude (List.take 5 (List.drop 3 [160, 1, 32, 0, 0, 0, 1, 0])) =
      10 := by decide
  refine ⟨?_, ?_, by decide, by decide, by decide, by norm_num, by norm_num⟩
  · have hb0 : baBits [160, 1, 0, 0, 0, 0, 1, 0] 0 = false := by decide
    have hb1 : baBits [160, 1, 0, 0, 0, 0, 1, 0] 1 = false := by decide
    have hb2 : baBits [160, 1, 0, 0, 0, 0, 1, 0] 2 = false := by decide
    have hb12 : baBits [160, 1, 0, 0, 0, 0, 1, 0] 12 = false := by decide
    have hb13 : baBits [160, 1, 0, 0, 0, 0, 1, 0] 13 = false := by decide
    have hb14 : baBits [160, 1, 0, 0, 0, 0, 1, 0] 14 = false := by decide
    have hb21 : baBits [160, 1, 0, 0, 0, 0, 1, 0] 21 = false := by decide
    rw [processFrame]
    simp only [Bool.false_eq_true, if_false, hlk, hmag, decodeMeasure,
      decodeMeasureWith, chain, hb0, hb1, hb2, hb12, hb13, hb14, hb21]
    norm_num
  · have hb0 : baBits [160, 1, 32, 0, 0, 0, 1, 0] 0 = false := by decide
    have hb1 : baBits [160, 1, 32, 0, 0, 0, 1, 0] 1 = false := by decide
    have hb2 : baBits [160, 1, 32, 0, 0, 0, 1, 0] 2 = false := by decide
    have hb12 : baBits [160, 1, 32, 0, 0, 0, 1, 0] 12 = false := by decide
    have hb13 : baBits [160, 1, 32, 0, 0, 0, 1, 0] 13 = false := by decide
    have hb14 : baBits [160, 1, 32, 0, 0, 0, 1, 0] 14 = false := by decide
    have hb21 : baBits [160, 1, 32, 0, 0, 0, 1, 0] 21 = true := by decide
    rw [processFrame]
    simp only [Bool.false_eq_true, if_false, hlk2, hmag2, decodeMeasure,
      decodeMeasureWith, chain, hb0, hb1, hb2, hb12, hb13, hb14, hb21]
    simp
    norm_num

/-- Witness for C4 amended: the "V DC" frame with magnitude 10000 decodes
to 1; its twin with the sign bit set decodes to -1 in the same unit. -/
theorem sign_bit_negation_amended_witness :
    processFrame false [160, 2, 32, 1, 0, 0, 0, 0] =
      Output.measurement (MeasValue.num (-1)) "V DC" := by
  have hlk : lookupMode (modeKeyOf (baBits [160, 2, 0, 1, 0, 0, 0, 0])) =
      some ⟨"V DC", 10000⟩ := by decide
  have hmag : magnitude (List.take 5 (List.drop 3 [160, 2, 0, 1, 0, 0, 0, 0])) =
      10000 := by decide
  have hb0 : baBits [160, 2, 0, 1, 0, 0, 0, 0] 0 = false := by decide
  have hb1 : baBits [160, 2, 0, 1, 0, 0, 0, 0] 1 = false := by decide
  have hb2 : baBits [160, 2, 0, 1, 0, 0, 0, 0] 2 = false := by decide
  have hb12 : baBits [160, 2, 0, 1, 0, 0, 0, 0] 12 = false := by decide
  have hb13 : baBits [160, 2, 0, 1, 0, 0, 0, 0] 13 = false := by decide
  have hb14 : baBits [160, 2, 0, 1, 0, 0, 0, 0] 14 = false := by decide
  have hb21 : baBits [160, 2, 0, 1, 0, 0, 0, 0] 21 = false := by decide
  have h' : processFrame false [160, 2, 0, 1, 0, 0, 0, 0] =
      Output.measurement (MeasValue.num 1) "V DC" := by
    rw [processFrame]
    simp only [Bool.false_eq_true, if_false, hlk, hmag, decodeMeasure,
      decodeMeasureWith, chain, hb0, hb1, hb2, hb12, hb13, hb14, hb21]
    norm_num
  have hmain := (sign_bit_negation_amended [160, 2, 32, 1, 0, 0, 0, 0]
    [160, 2, 0, 1, 0, 0, 0, 0] (by decide) (by decide) (by decide) (by decide)
    (by decide) (by decide) ⟨"V DC", 10000⟩ (by decide)).2.2
    (by decide) (by decide) (by decide) (by decide) 1 "V DC" h'
  exact hmain

/-- The realignment loop consumes every short read, then returns exactly at
the first read that delivers all 8 bytes, leaving the timeout at 400 and
appending to the trace exactly one 8-byte read request per iteration plus
the final timeout assignment. -/
theorem syncLoop_spec :
    ∀ (pre : List (List ℕ)) (r : List ℕ) (post : List (List ℕ)) (t : ℕ)
      (tr : List Ev),
      (∀ x ∈ pre, x.length < 8) → 8 ≤ r.length →
      syncLoop (pre ++ r :: post) t tr =
        some ⟨post, 400,
          (tr ++ pre.map (fun x => Ev.read 8 (x.take 8))) ++
            [Ev.read 8 (r.take 8), Ev.setTimeout 400]⟩ := by
  intro pre
  induction pre with
  | nil =>
      intro r post t tr _ hr
      have hlen : (r.take 8).length = 8 := by
        rw [List.length_take]; omega
      rw [List.nil_append]
      simp only [syncLoop, hlen, if_pos, pSetTimeout]
      simp
  | cons x xs ih =>
      intro r post t tr hpre hr
      have hx : x.length < 8 := hpre x (by simp)
      have hlen : ¬((x.take 8).length = 8) := by
        rw [List.length_take]; omega
      rw [List.cons_append]
      simp only [syncLoop, hlen, if_neg, if_false]
      rw [ih r post t (tr ++ [Ev.read 8 (x.take 8)])
        (fun y hy => hpre y (by simp [hy])) hr]
      simp [List.append_assoc]

/-- C8: `synchronize` first sets the short timeout, discards one 16-byte
read, then issues 8-byte reads and returns exactly when one first delivers
all 8 bytes, with the timeout then set to the steady-state 400; the trace
shows its only effects on the stream are the reads and the two timeout
assignments. -/
theorem synchronize_realigns :
    ∀ (junk : List ℕ) (pre : List (List ℕ)) (r : List ℕ) (post : List (List ℕ))
      (t0 : ℕ),
      (∀ x ∈ pre, x.length < 8) → 8 ≤ r.length →
      synchronize ⟨junk :: (pre ++ r :: post), t0, []⟩ =
        some ⟨post, 400,
          Ev.setTimeout 50 :: Ev.read 16 (junk.take 16) ::
            (pre.map (fun x => Ev.read 8 (x.take 8)) ++
              [Ev.read 8 (r.take 8), Ev.setTimeout 400])⟩ := by
  intro junk pre r post t0 hpre hr
  simp only [synchronize, pSetTimeout, pRead, List.headD, List.tail_cons,
    List.nil_append]
  rw [syncLoop_spec pre r post 50
    ([Ev.setTimeout 50] ++ [Ev.read 16 (junk.take 16)]) hpre hr]
  simp

/-- Witness for C8: a junk chunk, then reads of length 3 and 5, then full
8-byte chunks: `synchronize` returns exactly at the first full 8-byte read,
consuming nothing after it, with the timeout left at 400. -/
theorem synchronize_realigns_witness :
    synchronize ⟨[[1, 2], [7, 7, 7], [6, 6, 6, 6, 6], [1, 2, 3, 4, 5, 6, 7, 8],
        [9, 9, 9, 9, 9, 9, 9, 9]], 0, []⟩ =
      some ⟨[[9, 9, 9, 9, 9, 9, 9, 9]], 400,
        Ev.setTimeout 50 :: Ev.read 16 [1, 2] ::
          ([Ev.read 8 [7, 7, 7], Ev.read 8 [6, 6, 6, 6, 6]] ++
            [Ev.read 8 [1, 2, 3, 4, 5, 6, 7, 8], Ev.setTimeout 400])⟩ := by
  have h := synchronize_realigns [1, 2] [[7, 7, 7], [6, 6, 6, 6, 6]]
    [1, 2, 3, 4, 5, 6, 7, 8] [[9, 9, 9, 9, 9, 9, 9, 9]] 0 (by decide) (by decide)
  simpa using h
